import Mathlib

/-!
Shallow embedding of the adaptive transfer engine of `RestrictedBotTelegram`
(`src/core/optimizer.py` and `src/core/monitor.py`), together with theorems
settling the specification claims about the planner, the circuit breaker,
the speed monitor and the chart sampling routine.

Numeric conventions: Python ints are `ℕ`/`ℤ`, Python floats are `ℚ`
(exact rational arithmetic), Python `//` on nonnegative ints is `Nat` division
and on floats is `Rat.floor`.  A Python function that can raise
(`ZeroDivisionError`, a propagating exception from the AI oracle) is embedded
as an `Option`-valued function returning `none` on the raising paths.
-/

namespace RestrictedBot

/- The models below are executable and several claims are settled by
evaluating them at concrete inputs; the core rational operations are restored
to their default transparency so that such evaluations reduce. -/
attribute [local semireducible] Rat.add Rat.sub Rat.mul Rat.inv

/-- `TransferStrategy` enum from `core/optimizer.py`. -/
inductive TransferStrategy where
  | single
  | multi_connection
  | adaptive
  | streaming
  | torrent
deriving DecidableEq, Repr

/-- The `download` section of `SpeedSettings` (`config/settings.py`):
`chunk_size_mb` (default 5, `ge=0.1, le=50`), `max_connections`
(default 16, `ge=1, le=64`), `buffer_size_mb` (default 10, `ge=1, le=100`). -/
structure DownloadConfig where
  chunk_size_mb : ℚ
  max_connections : ℕ
  buffer_size_mb : ℚ
deriving DecidableEq, Repr

/-- Default values of the `download` settings fields. -/
def defaultDownloadConfig : DownloadConfig :=
  { chunk_size_mb := 5, max_connections := 16, buffer_size_mb := 10 }

/-- The `compression` settings consulted by `_should_compress`. -/
structure CompressionConfig where
  enabled : Bool
  adaptive_compression : Bool
deriving DecidableEq, Repr

/-- Default compression settings (compression disabled). -/
def defaultCompressionConfig : CompressionConfig :=
  { enabled := false, adaptive_compression := false }

/-- A network-analysis snapshot as read by the planner
(`network_analysis.get('latency', 0)` etc.). -/
structure NetworkAnalysis where
  latency : ℚ
  bandwidth : ℚ
  packet_loss : ℚ
deriving DecidableEq, Repr

/-- `TransferOptimization` dataclass from `core/optimizer.py`. -/
structure TransferOptimization where
  strategy : TransferStrategy
  chunk_size : ℚ
  connections : ℕ
  buffer_size : ℚ
  compression_enabled : Bool
  encryption_enabled : Bool
  resume_enabled : Bool
  priority : ℕ
  estimated_speed : ℚ
  confidence : ℚ
deriving DecidableEq, Repr

/-- `IntelligentSpeedOptimizer._rule_based_optimization`: returns
`(strategy, confidence, estimated_speed)`. -/
def ruleBasedOptimization (fileSize : ℕ) (net : NetworkAnalysis) :
    TransferStrategy × ℚ × ℚ :=
  let sc : TransferStrategy × ℚ :=
    if fileSize < 2 * 1024 * 1024 then (.single, 9/10)
    else if 200 < net.latency ∨ net.bandwidth < 1 * 1024 * 1024 then (.single, 8/10)
    else if 100 * 1024 * 1024 < fileSize then (.multi_connection, 85/100)
    else (.adaptive, 7/10)
  let estimated_speed : ℚ :=
    if 0 < net.bandwidth then min (net.bandwidth / (1024 * 1024)) 100
    else if net.latency < 50 then 50
    else if net.latency < 100 then 20
    else if net.latency < 200 then 10
    else 5
  (sc.1, sc.2, estimated_speed)

/-- `IntelligentSpeedOptimizer._calculate_optimal_chunk_size`. -/
def calcOptimalChunkSize (cfg : DownloadConfig) (fileSize : ℕ)
    (net : NetworkAnalysis) (strategy : TransferStrategy) : ℚ :=
  let base_chunk : ℚ := cfg.chunk_size_mb * 1024 * 1024
  if strategy = .single then min (fileSize : ℚ) base_chunk
  else if 100 < net.latency then max (256 * 1024) ((Rat.floor (base_chunk / 2) : ℚ))
  else if 1/10 < net.packet_loss then max (128 * 1024) ((Rat.floor (base_chunk / 4) : ℚ))
  else min (base_chunk * 2) (50 * 1024 * 1024)

/-- `IntelligentSpeedOptimizer._calculate_optimal_connections`. -/
def calcOptimalConnections (cfg : DownloadConfig) (fileSize : ℕ)
    (net : NetworkAnalysis) (strategy : TransferStrategy) : ℕ :=
  if strategy = .single then 1
  else
    let base_connections := min cfg.max_connections (max 2 (fileSize / (10 * 1024 * 1024)))
    if 150 < net.latency then max 2 (base_connections / 2)
    else base_connections

/-- `IntelligentSpeedOptimizer._calculate_buffer_size`. -/
def calcBufferSize (cfg : DownloadConfig) (chunk_size : ℚ) (connections : ℕ) : ℚ :=
  min (chunk_size * connections * 2) (cfg.buffer_size_mb * 1024 * 1024)

/-- Substring test on character lists (Python `pat in s`). -/
def charsContain (s pat : List Char) : Bool :=
  (List.range (s.length + 1)).any (fun i => pat.isPrefixOf (s.drop i))

/-- `IntelligentSpeedOptimizer._should_compress` (content type matched by
substring against the text-like classes, then the 1MB size cutoff). -/
def shouldCompress (cc : CompressionConfig) (fileType : String) (fileSize : ℕ) : Bool :=
  if cc.enabled = false then false
  else if ["text", "json", "xml", "javascript"].any
      (fun t => charsContain fileType.toLower.toList t.toList) then true
  else if fileSize < 1024 * 1024 then false
  else cc.adaptive_compression

/-- The AI oracle as seen by `_optimize_download`: disabled in config, raising
an exception when called, or returning a prediction
`(strategy, confidence, estimated_speed)`. -/
inductive AIOracle where
  | disabled
  | throws
  | returns (strategy : TransferStrategy) (confidence : ℚ) (estimated_speed : ℚ)
deriving DecidableEq, Repr

/-- Shared tail of `_optimize_download`: compute chunk size, connections and
buffer size for an already-chosen `(strategy, confidence, estimated_speed)`
and assemble the `TransferOptimization`. -/
def mkOptimization (cfg : DownloadConfig) (cc : CompressionConfig)
    (encryptionEnabled : Bool) (fileSize : ℕ) (fileType : String)
    (net : NetworkAnalysis) (priority : ℕ)
    (strategy : TransferStrategy) (confidence estimated_speed : ℚ) :
    TransferOptimization :=
  let chunk_size := calcOptimalChunkSize cfg fileSize net strategy
  let connections := calcOptimalConnections cfg fileSize net strategy
  { strategy := strategy
    chunk_size := chunk_size
    connections := connections
    buffer_size := calcBufferSize cfg chunk_size connections
    compression_enabled := shouldCompress cc fileType fileSize
    encryption_enabled := encryptionEnabled
    resume_enabled := true
    priority := priority
    estimated_speed := estimated_speed
    confidence := confidence }

/-- `IntelligentSpeedOptimizer._optimize_download`.  When the AI oracle is
enabled and raises, there is no `try`/`except` in `_optimize_download`, so the
exception propagates and no `TransferOptimization` is produced (`none`). -/
def optimizeDownload (cfg : DownloadConfig) (cc : CompressionConfig)
    (encryptionEnabled : Bool) (oracle : AIOracle) (fileSize : ℕ)
    (fileType : String) (net : NetworkAnalysis) (priority : ℕ) :
    Option TransferOptimization :=
  match oracle with
  | .throws => none
  | .disabled =>
    let r := ruleBasedOptimization fileSize net
    some (mkOptimization cfg cc encryptionEnabled fileSize fileType net priority r.1 r.2.1 r.2.2)
  | .returns s c e =>
    some (mkOptimization cfg cc encryptionEnabled fileSize fileType net priority s c e)

/-- Python `max(list)` on a nonempty list (`0` on `[]`, never reached). -/
def maxListQ : List ℚ → ℚ
  | [] => 0
  | x :: xs => xs.foldl max x

/-- Python `min(list)` on a nonempty list (`0` on `[]`, never reached). -/
def minListQ : List ℚ → ℚ
  | [] => 0
  | x :: xs => xs.foldl min x

/-- `TransferContext` dataclass from `core/monitor.py`.  The two metadata keys
the progress path reads and writes (`metadata['last_bytes']`, read with
default `0`, and `metadata['last_speed']`) are modelled as fields. -/
structure TransferContext where
  transfer_id : String
  user_id : String
  file_name : String
  file_size : ℤ
  transfer_type : String
  start_time : ℚ
  status : String
  priority : ℕ
  tags : List String
  speed_samples : List ℚ
  error_count : ℕ
  retry_count : ℕ
  last_checkpoint : Option ℚ
  last_bytes : ℤ
  last_speed : Option ℚ
deriving DecidableEq, Repr

/-- A freshly registered context (`register_transfer`): `status="pending"`,
empty samples, no checkpoint. -/
def mkTransferContext (id user file : String) (size : ℤ) (ttype : String)
    (now : ℚ) (priority : ℕ) : TransferContext :=
  { transfer_id := id, user_id := user, file_name := file, file_size := size
    transfer_type := ttype, start_time := now, status := "pending"
    priority := priority, tags := [], speed_samples := []
    error_count := 0, retry_count := 0, last_checkpoint := none
    last_bytes := 0, last_speed := none }

/-- `SpeedData` snapshot, fields as set at the constructor call in
`update_transfer_progress` (the dataclass module `core/models/speed_data.py`
is not in the sources; the field list is fixed by that call and spec section
3). -/
structure SpeedData where
  timestamp : ℚ
  bytes_transferred : ℤ
  total_bytes : ℤ
  transfer_type : String
  speed_bps : ℚ
  speed_kbps : ℚ
  speed_mbps : ℚ
  progress_percent : ℚ
  eta_seconds : ℚ
  remaining_bytes : ℤ
  transfer_id : String
  user_id : String
deriving DecidableEq, Repr

/-- `AdaptiveSpeedMonitor._calculate_adaptive_eta`.  A Python
`ZeroDivisionError` (last sample `0`, or zero weighted average) is modelled
as `none`.  `aiPred` abstracts `ai_predictor.predict_future_speed`, consulted
only when AI is enabled and more than 10 samples exist.  The fixed weights are
`np.linspace(0.5, 1.0, 5)`. -/
def calculateAdaptiveEta (bytesTransferred totalBytes : ℤ) (samples : List ℚ)
    (currentAvgSpeed : ℚ) (aiEnabled : Bool) (aiPred : ℚ) : Option ℚ :=
  if samples = [] ∨ currentAvgSpeed ≤ 0 then some 0
  else
    let remaining : ℚ := ((totalBytes - bytesTransferred : ℤ) : ℚ)
    let lastSample := samples.getLastD 0
    if lastSample = 0 then none
    else
      let m1 := remaining / lastSample
      let m2 := remaining / currentAvgSpeed
      let withWeighted : Option (List ℚ) :=
        if 5 ≤ samples.length then
          let last5 := samples.drop (samples.length - 5)
          let weights : List ℚ := [1/2, 5/8, 3/4, 7/8, 1]
          let weightedAvg := (List.zipWith (fun s w => s * w) last5 weights).sum / (15/4)
          if weightedAvg = 0 then none else some [m1, m2, remaining / weightedAvg]
        else some [m1, m2]
      match withWeighted with
      | none => none
      | some ms =>
        let ms := if aiEnabled = true ∧ 10 < samples.length ∧ 0 < aiPred
                  then ms ++ [remaining / aiPred] else ms
        some (maxListQ ms)

/-- The instantaneous-speed computation at the top of
`update_transfer_progress`: used only when no explicit speed is given and the
context has a truthy (non-`None`, nonzero) checkpoint and positive elapsed
time. -/
def computeInstSpeed (ctx : TransferContext) (now : ℚ) (bytesTransferred : ℤ)
    (speedArg : Option ℚ) : Option ℚ :=
  match speedArg with
  | some s => some s
  | none =>
    match ctx.last_checkpoint with
    | none => none
    | some cp =>
      if cp = 0 then none
      else if 0 < now - cp then
        some (((bytesTransferred - ctx.last_bytes : ℤ) : ℚ) / (now - cp))
      else none

/-- `AdaptiveSpeedMonitor.update_transfer_progress` for a registered context
(the unknown-id branch returns `None` before reaching this logic).  Returns
the produced `SpeedData` together with the mutated context; `none` models the
`ZeroDivisionError` escaping from `_calculate_adaptive_eta`. -/
def updateTransferProgress (ctx : TransferContext) (now : ℚ)
    (bytesTransferred : ℤ) (totalArg : Option ℤ) (speedArg : Option ℚ)
    (aiEnabled : Bool) (aiPred : ℚ) : Option (SpeedData × TransferContext) :=
  let speedBps := computeInstSpeed ctx now bytesTransferred speedArg
  let totalBytes := totalArg.getD ctx.file_size
  let remainingBytes := max 0 (totalBytes - bytesTransferred)
  let progressPercent : ℚ :=
    if 0 < totalBytes then (bytesTransferred : ℚ) / (totalBytes : ℚ) * 100 else 0
  let totalElapsed := now - ctx.start_time
  let avgSpeedBps : ℚ :=
    if 0 < totalElapsed then (bytesTransferred : ℚ) / totalElapsed else 0
  match calculateAdaptiveEta bytesTransferred totalBytes ctx.speed_samples
      avgSpeedBps aiEnabled aiPred with
  | none => none
  | some eta =>
    let effSpeed := match speedBps with
      | none => avgSpeedBps
      | some s => if s = 0 then avgSpeedBps else s
    let sd : SpeedData :=
      { timestamp := now, bytes_transferred := bytesTransferred
        total_bytes := totalBytes, transfer_type := ctx.transfer_type
        speed_bps := effSpeed, speed_kbps := effSpeed / 1024
        speed_mbps := effSpeed / (1024 * 1024)
        progress_percent := progressPercent, eta_seconds := eta
        remaining_bytes := remainingBytes, transfer_id := ctx.transfer_id
        user_id := ctx.user_id }
    some (sd, { ctx with
      speed_samples := ctx.speed_samples ++ [effSpeed]
      last_bytes := bytesTransferred
      last_speed := speedBps
      last_checkpoint := some now })

/-- The per-transfer history update inside `update_transfer_progress`: append
the snapshot, then `popleft` one element when the length exceeds the
configured `monitoring['history_size']`. -/
def appendHistoryTrim (hist : List SpeedData) (sd : SpeedData) (maxHistory : ℕ) :
    List SpeedData :=
  let h := hist ++ [sd]
  if maxHistory < h.length then h.drop 1 else h

/-- `TransferStats` record, fields as set at the constructor call in
`complete_transfer` (the dataclass module is not in the sources; the field
list is fixed by that call). -/
structure TransferStats where
  transfer_id : String
  user_id : String
  file_name : String
  file_size : ℤ
  transfer_type : String
  duration_seconds : ℚ
  avg_speed_mbps : ℚ
  max_speed_mbps : ℚ
  min_speed_mbps : ℚ
  success : Bool
  error_message : String
  start_time : ℚ
  end_time : ℚ
  retry_count : ℕ
  tags : List String
deriving DecidableEq, Repr

/-- The monitor state touched by `complete_transfer`: the live registry
`active_transfers` and the persisted stats records (one file per call to
`_save_transfer_stats`, modelled as an append-only list). -/
structure MonitorState where
  active : String → Option TransferContext
  savedStats : List TransferStats

/-- `AdaptiveSpeedMonitor.complete_transfer`: no-op on an unknown id;
otherwise builds the final `TransferStats`, persists it, and removes the live
context. -/
def completeTransfer (st : MonitorState) (id : String) (now : ℚ)
    (success : Bool) (errorMessage : String) : MonitorState :=
  match st.active id with
  | none => st
  | some ctx =>
    let duration := now - ctx.start_time
    let avgSpeed : ℚ := if 0 < duration then (ctx.file_size : ℚ) / duration else 0
    let stats : TransferStats :=
      { transfer_id := id, user_id := ctx.user_id, file_name := ctx.file_name
        file_size := ctx.file_size, transfer_type := ctx.transfer_type
        duration_seconds := duration
        avg_speed_mbps := avgSpeed / (1024 * 1024)
        max_speed_mbps := if ctx.speed_samples ≠ [] then
          maxListQ ctx.speed_samples / (1024 * 1024) else 0
        min_speed_mbps := if ctx.speed_samples ≠ [] then
          minListQ ctx.speed_samples / (1024 * 1024) else 0
        success := success, error_message := errorMessage
        start_time := ctx.start_time, end_time := now
        retry_count := ctx.retry_count, tags := ctx.tags }
    { active := fun i => if i = id then none else st.active i
      savedStats := st.savedStats ++ [stats] }

/-- Circuit-breaker states (string values in the source dictionaries). -/
inductive CBState where
  | closed
  | opened
  | halfOpen
deriving DecidableEq, Repr

/-- One per-host circuit-breaker dictionary from
`IntelligentSpeedOptimizer._record_failure` (the `test_count` key is created
on entering `half_open`; it is modelled as a field initialised to 0). -/
structure CircuitBreaker where
  state : CBState
  failure_count : ℕ
  success_count : ℕ
  opened_at : ℚ
  reset_timeout : ℚ
  threshold : ℕ
  test_count : ℕ
deriving DecidableEq, Repr

/-- The breaker dictionary created lazily on a first failure
(`reset_timeout=60`, `threshold=5`). -/
def mkCircuitBreaker : CircuitBreaker :=
  { state := .closed, failure_count := 0, success_count := 0, opened_at := 0
    reset_timeout := 60, threshold := 5, test_count := 0 }

/-- `IntelligentSpeedOptimizer._is_circuit_open` for a host with an existing
breaker: returns whether the request is blocked, plus the possibly mutated
breaker (an `open` breaker whose `reset_timeout` has elapsed flips to
`half_open` and lets the request through).  `closed` and `half_open` breakers
never block. -/
def isCircuitOpen (now : ℚ) (cb : CircuitBreaker) : Bool × CircuitBreaker :=
  match cb.state with
  | .opened =>
    if cb.reset_timeout < now - cb.opened_at then
      (false, { cb with state := .halfOpen, test_count := 0 })
    else (true, cb)
  | _ => (false, cb)

/-- `IntelligentSpeedOptimizer._record_failure` on an existing breaker.  In
`half_open` any failure reopens; otherwise the failure count is incremented,
the success count decremented (floor 0), and the breaker opens when the
threshold is reached. -/
def recordFailure (now : ℚ) (cb : CircuitBreaker) : CircuitBreaker :=
  match cb.state with
  | .halfOpen => { cb with state := .opened, opened_at := now, test_count := 0 }
  | _ =>
    let fc := cb.failure_count + 1
    let sc := cb.success_count - 1
    if cb.threshold ≤ fc then
      { cb with
        failure_count := fc
        success_count := sc
        state := .opened
        opened_at := now }
    else { cb with failure_count := fc, success_count := sc }

/-- `IntelligentSpeedOptimizer._record_failure` at registry level: the breaker
is created with the defaults if the host has none. -/
def recordFailureOpt (now : ℚ) (cb : Option CircuitBreaker) : CircuitBreaker :=
  recordFailure now (cb.getD mkCircuitBreaker)

/-- `IntelligentSpeedOptimizer._record_success` on an existing breaker:
3 consecutive `half_open` successes close it; a `closed` success decays the
failure count by one (floor 0); an `open` success changes nothing. -/
def recordSuccess (cb : CircuitBreaker) : CircuitBreaker :=
  match cb.state with
  | .halfOpen =>
    let tc := cb.test_count + 1
    if 3 ≤ tc then { cb with state := .closed, failure_count := 0, test_count := 0 }
    else { cb with test_count := tc }
  | .closed =>
    { cb with
      success_count := cb.success_count + 1
      failure_count := cb.failure_count - 1 }
  | .opened => cb

/-- A sequence of recorded failures at the given times, earliest first. -/
def recordFailures (ts : List ℚ) (cb : CircuitBreaker) : CircuitBreaker :=
  ts.foldl (fun c t => recordFailure t c) cb

/-- Python slice `l[:k]` for a possibly negative `k`. -/
def pySliceTo {α : Type} (k : ℤ) (l : List α) : List α :=
  if 0 ≤ k then l.take k.toNat else l.take (l.length - (-k).toNat)

/-- `indices.add(i)` for the Python index set: the set is modelled as a
duplicate-free list (the set is only ever queried through `len`, membership
and the final `sorted(...)`, all of which are order-independent). -/
def addIndex (l : List ℕ) (i : ℕ) : List ℕ :=
  if i ∈ l then l else l ++ [i]

/-- The index-set construction of `_smart_sampling_indices` once the changes
are sorted: seed with indices 0 and `n-1`, add the first `target-2` change
indices (Python slice semantics for a possibly negative bound), then, when
slots remain, every positive multiple of `step = n // (remaining+1)` below
`n`. -/
def buildIndices (n targetPoints : ℕ) (sortedChanges : List (ℕ × ℚ)) : List ℕ :=
  let top := pySliceTo ((targetPoints : ℤ) - 2) sortedChanges
  let afterTop := (top.map Prod.fst).foldl addIndex (addIndex (addIndex [] 0) (n - 1))
  let remaining : ℤ := (targetPoints : ℤ) - afterTop.length
  if 0 < remaining then
    let step := n / (remaining.toNat + 1)
    ((List.range n).filter
      (fun i => decide (0 < i) && decide (i % step = 0))).foldl addIndex afterTop
  else afterTop

/-- `AdaptiveSpeedMonitor._smart_sampling_indices` on the `speed_kbps` series
of the history.  Python's stable descending sort by change is modelled by the
stable `insertionSort` with relation `b.2 ≤ a.2` (a stable sort's output is
unique, so this matches `list.sort(key=..., reverse=True)` exactly); the
final `sorted(indices)` is an ascending `insertionSort` of the
duplicate-free index list. -/
def smartSamplingIndices (speeds : List ℚ) (targetPoints : ℕ) : List ℕ :=
  let n := speeds.length
  if n ≤ targetPoints then List.range n
  else
    let changes : List (ℕ × ℚ) :=
      (List.range (n - 1)).map (fun j => (j + 1, |speeds.getD (j + 1) 0 - speeds.getD j 0|))
    let sortedChanges := changes.insertionSort (fun a b => b.2 ≤ a.2)
    (buildIndices n targetPoints sortedChanges).insertionSort (· ≤ ·)

/-- The scenario network snapshot used by several claims: latency 20 ms,
bandwidth 50 MB/s, no packet loss. -/
def netFast : NetworkAnalysis := ⟨20, 52428800, 0⟩

/-- The plan computed at the default settings for a 5-byte file on `netFast`
(used to witness the planner theorems). -/
def planOpt5B : TransferOptimization :=
  { strategy := .single, chunk_size := 5, connections := 1, buffer_size := 10
    compression_enabled := false, encryption_enabled := false
    resume_enabled := true, priority := 5, estimated_speed := 50
    confidence := 9/10 }

/-- An open breaker that tripped at time 0 with the default timeout (used by
the circuit-breaker counterexample). -/
def cbOpenAt0 : CircuitBreaker :=
  { mkCircuitBreaker with state := .opened, opened_at := 0, failure_count := 5 }

/-- A freshly registered 100-byte download (used by the monitor claims). -/
def ctxFresh : TransferContext := mkTransferContext "t1" "u1" "file" 100 "download" 0 5

/-- The snapshot produced by the first progress update on `ctxFresh` at time
10 with 0 bytes transferred: the speed sample recorded is 0 and the ETA is 0
although nothing has been transferred. -/
def sdFirst : SpeedData :=
  { timestamp := 10, bytes_transferred := 0, total_bytes := 100
    transfer_type := "download", speed_bps := 0, speed_kbps := 0
    speed_mbps := 0, progress_percent := 0, eta_seconds := 0
    remaining_bytes := 100, transfer_id := "t1", user_id := "u1" }

/-- `ctxFresh` after that first update: one 0 speed sample, checkpoint set. -/
def ctxAfterFirst : TransferContext :=
  { ctxFresh with
    speed_samples := [0]
    last_bytes := 0
    last_speed := none
    last_checkpoint := some 10 }

/-- A context carrying one nonzero speed sample and an earlier checkpoint
(used to witness the ETA theorem on the main computation path). -/
def ctxOneSample : TransferContext :=
  { ctxFresh with speed_samples := [2], last_checkpoint := some 5, last_bytes := 10 }

/-- The snapshot produced by updating `ctxOneSample` at time 10 with 50 of
100 bytes: instantaneous speed (50-10)/5 = 8, ETA max(50/2, 50/5) = 25. -/
def sdOneSample : SpeedData :=
  { timestamp := 10, bytes_transferred := 50, total_bytes := 100
    transfer_type := "download", speed_bps := 8, speed_kbps := 1/128
    speed_mbps := 1/131072, progress_percent := 50, eta_seconds := 25
    remaining_bytes := 50, transfer_id := "t1", user_id := "u1" }

/-- `ctxOneSample` after that update. -/
def ctxOneSampleAfter : TransferContext :=
  { ctxOneSample with
    speed_samples := [2, 8]
    last_bytes := 50
    last_speed := some 8
    last_checkpoint := some 10 }

/-- A registered 1 MB transfer driven through many updates (used to exhibit
the unbounded growth of `speed_samples`). -/
def runCtx : TransferContext := mkTransferContext "t" "u" "f" 1000000 "download" 0 5

/-- One progress update of the long run: at step `i` the executor reports
`i+1` bytes at time `i+1` with an explicit speed of 1 byte/s. -/
def stepUpdate (c : TransferContext) (i : ℕ) : TransferContext :=
  match updateTransferProgress c ((i : ℚ) + 1) ((i : ℤ) + 1) none (some 1) false 0 with
  | some p => p.2
  | none => c

/-- The context after `k` successive progress updates on `runCtx`. -/
def runUpdates (k : ℕ) : TransferContext := (List.range k).foldl stepUpdate runCtx

/-- The `speed_kbps` series 0,1,...,9 (used to witness the sampling
theorem). -/
def rampSpeeds : List ℚ := (List.range 10).map (fun i => (i : ℚ))

/-- `_calculate_optimal_connections` never returns less than one connection
when the configured maximum is at least one. -/
theorem calcOptimalConnections_pos (cfg : DownloadConfig) (fileSize : ℕ)
    (net : NetworkAnalysis) (s : TransferStrategy)
    (h : 1 ≤ cfg.max_connections) : 1 ≤ calcOptimalConnections cfg fileSize net s := by
  unfold calcOptimalConnections
  split
  · exact le_refl 1
  · dsimp only
    split <;> omega

/-- `_calculate_optimal_chunk_size` returns at least one byte when the file
has at least one byte and the configured chunk size respects its declared
lower bound of 0.1 MB. -/
theorem calcOptimalChunkSize_pos (cfg : DownloadConfig) (fileSize : ℕ)
    (net : NetworkAnalysis) (s : TransferStrategy)
    (hcs : 1/10 ≤ cfg.chunk_size_mb) (hfs : 1 ≤ fileSize) :
    1 ≤ calcOptimalChunkSize cfg fileSize net s := by
  have hbase : (524288/5 : ℚ) ≤ cfg.chunk_size_mb * 1024 * 1024 := by nlinarith
  unfold calcOptimalChunkSize
  split
  · refine le_min ?_ (by linarith)
    exact_mod_cast hfs
  · split
    · refine le_trans ?_ (le_max_left _ _); norm_num
    · split
      · refine le_trans ?_ (le_max_left _ _); norm_num
      · refine le_min (by linarith) (by norm_num)

/-- The rule-based confidence is one of 0.9, 0.8, 0.85, 0.7, hence at
most 0.9. -/
theorem ruleConfidence_le (fs : ℕ) (net : NetworkAnalysis) :
    (ruleBasedOptimization fs net).2.1 ≤ 9/10 := by
  unfold ruleBasedOptimization
  dsimp only
  split_ifs <;> norm_num

/-- C1, counterexample: the claim demands `chunk_size ≥ 1` for every input,
but a plan for a file of size 0 (the value `_analyze_file` reports when
analysis fails) carries `chunk_size = min(0, base) = 0`. -/
theorem C1_counterexample :
    (optimizeDownload defaultDownloadConfig defaultCompressionConfig false
        .disabled 0 "" netFast 5).map TransferOptimization.chunk_size = some 0 ∧
      ¬ ((1 : ℚ) ≤ 0) := by decide

/-- C1, amended: every plan the planner returns has `connections ≥ 1`, a
`single` plan has `connections = 1`, and `chunk_size ≥ 1` holds whenever the
file size is at least one byte (at size 0 the `single` path yields
`chunk_size = 0`). -/
theorem C1_plan_bounds (cfg : DownloadConfig) (cc : CompressionConfig)
    (enc : Bool) (oracle : AIOracle) (fs : ℕ) (ft : String)
    (net : NetworkAnalysis) (pr : ℕ) (opt : TransferOptimization)
    (hmc : 1 ≤ cfg.max_connections) (hcs : 1/10 ≤ cfg.chunk_size_mb)
    (hopt : optimizeDownload cfg cc enc oracle fs ft net pr = some opt) :
    1 ≤ opt.connections ∧ (opt.strategy = .single → opt.connections = 1) ∧
      (1 ≤ fs → 1 ≤ opt.chunk_size) := by
  have hmk : ∀ s c e, 1 ≤ (mkOptimization cfg cc enc fs ft net pr s c e).connections ∧
      ((mkOptimization cfg cc enc fs ft net pr s c e).strategy = .single →
        (mkOptimization cfg cc enc fs ft net pr s c e).connections = 1) ∧
      (1 ≤ fs → 1 ≤ (mkOptimization cfg cc enc fs ft net pr s c e).chunk_size) := by
    intro s c e
    refine ⟨calcOptimalConnections_pos cfg fs net s hmc, fun hs => ?_, fun hfs =>
      calcOptimalChunkSize_pos cfg fs net s hcs hfs⟩
    have hs' : s = .single := hs
    show calcOptimalConnections cfg fs net s = 1
    rw [hs']
    rfl
  cases oracle with
  | disabled =>
    have heq : opt = mkOptimization cfg cc enc fs ft net pr
        (ruleBasedOptimization fs net).1 (ruleBasedOptimization fs net).2.1
        (ruleBasedOptimization fs net).2.2 := by
      simpa [optimizeDownload] using hopt.symm
    rw [heq]; exact hmk _ _ _
  | throws => simp [optimizeDownload] at hopt
  | returns s c e =>
    have heq : opt = mkOptimization cfg cc enc fs ft net pr s c e := by
      simpa [optimizeDownload] using hopt.symm
    rw [heq]; exact hmk s c e

/-- C1, witness: the amended theorem applied to the default configuration, a
5-byte file and the fast network snapshot. -/
theorem C1_plan_bounds_witness :
    1 ≤ planOpt5B.connections ∧
      (planOpt5B.strategy = .single → planOpt5B.connections = 1) ∧
      (1 ≤ 5 → 1 ≤ planOpt5B.chunk_size) :=
  C1_plan_bounds defaultDownloadConfig defaultCompressionConfig false .disabled
    5 "" netFast 5 planOpt5B (by decide) (by norm_num [defaultDownloadConfig]) (by decide)

/-- C4, counterexample: at size 500 MB, latency 20 ms, bandwidth 50 MB/s the
rule `size > 100MB` fires first, so the strategy is `multi_connection`, not
`adaptive` as the claim states. -/
theorem C4_counterexample :
    (optimizeDownload defaultDownloadConfig defaultCompressionConfig false
        .disabled 524288000 "" netFast 5).map TransferOptimization.strategy =
      some .multi_connection ∧
      TransferStrategy.multi_connection ≠ TransferStrategy.adaptive := by decide

/-- C4, amended: for a 500 MB file at latency 20 ms and bandwidth 50 MB/s the
planner chooses `multi_connection` (not `adaptive`), and the computed
connection count, 16, lies in the claimed range `[4, 16]`. -/
theorem C4_scenario :
    (optimizeDownload defaultDownloadConfig defaultCompressionConfig false
        .disabled 524288000 "" netFast 5).map
        (fun o => (o.strategy, o.connections)) =
      some (.multi_connection, 16) ∧ 4 ≤ 16 ∧ 16 ≤ 16 := by decide

/-- C5, counterexample: with the oracle absent, a 1000-byte file gets
rule confidence 0.9, which exceeds the claimed bound of 0.8; and when the
oracle throws, the planner returns no optimization at all (the exception
propagates out of `_optimize_download`). -/
theorem C5_counterexample :
    (optimizeDownload defaultDownloadConfig defaultCompressionConfig false
        .disabled 1000 "" netFast 5).map TransferOptimization.confidence =
      some (9/10) ∧
      ¬ ((9/10 : ℚ) ≤ 8/10) ∧
      optimizeDownload defaultDownloadConfig defaultCompressionConfig false
        .throws 1000 "" netFast 5 = none := by
  refine ⟨by decide, by norm_num, rfl⟩

/-- C5, amended: when the AI oracle is absent (disabled), the planner returns
a plan whose strategy is the rule-based one and whose confidence is at most
0.9 (not 0.8: rule confidences are 0.9, 0.8, 0.85, 0.7); when the oracle
throws, the exception propagates and no plan is returned. -/
theorem C5_rule_fallback (cfg : DownloadConfig) (cc : CompressionConfig)
    (enc : Bool) (fs : ℕ) (ft : String) (net : NetworkAnalysis) (pr : ℕ) :
    (∀ opt, optimizeDownload cfg cc enc .disabled fs ft net pr = some opt →
        opt.strategy = (ruleBasedOptimization fs net).1 ∧
          opt.confidence ≤ 9/10) ∧
      optimizeDownload cfg cc enc .throws fs ft net pr = none := by
  refine ⟨fun opt hopt => ?_, rfl⟩
  have heq : opt = mkOptimization cfg cc enc fs ft net pr
      (ruleBasedOptimization fs net).1 (ruleBasedOptimization fs net).2.1
      (ruleBasedOptimization fs net).2.2 := by
    simpa [optimizeDownload] using hopt.symm
  rw [heq]
  exact ⟨rfl, ruleConfidence_le fs net⟩

/-- C5, witness: the amended theorem applied to the default configuration, a
5-byte file and the fast network snapshot. -/
theorem C5_rule_fallback_witness :
    (planOpt5B.strategy = (ruleBasedOptimization 5 netFast).1 ∧
        planOpt5B.confidence ≤ 9/10) ∧
      optimizeDownload defaultDownloadConfig defaultCompressionConfig false
        .throws 5 "" netFast 5 = none :=
  ⟨(C5_rule_fallback defaultDownloadConfig defaultCompressionConfig false
      5 "" netFast 5).1 planOpt5B (by decide),
    (C5_rule_fallback defaultDownloadConfig defaultCompressionConfig false
      5 "" netFast 5).2⟩

/-- C8, counterexample: for the 500 MB scenario the plan has
`chunk_size × connections = 10 MB × 16 = 160 MB`, far above the configured
10 MB buffer ceiling — only `buffer_size` is clamped, never the product. -/
theorem C8_counterexample :
    (optimizeDownload defaultDownloadConfig defaultCompressionConfig false
        .disabled 524288000 "" netFast 5).map
        (fun o => o.chunk_size * (o.connections : ℚ)) = some 167772160 ∧
      ¬ ((167772160 : ℚ) ≤ defaultDownloadConfig.buffer_size_mb * 1024 * 1024) := by
  refine ⟨by decide, by norm_num [defaultDownloadConfig]⟩

/-- C8, amended: the clamped quantity is `buffer_size`: every returned plan
has `buffer_size = min(chunk_size × connections × 2, ceiling) ≤` the
configured `buffer_size_mb` ceiling; the bare product `chunk_size ×
connections` is not bounded by it. -/
theorem C8_buffer_le (cfg : DownloadConfig) (cc : CompressionConfig)
    (enc : Bool) (oracle : AIOracle) (fs : ℕ) (ft : String)
    (net : NetworkAnalysis) (pr : ℕ) (opt : TransferOptimization)
    (hopt : optimizeDownload cfg cc enc oracle fs ft net pr = some opt) :
    opt.buffer_size ≤ cfg.buffer_size_mb * 1024 * 1024 := by
  have hmk : ∀ s c e,
      (mkOptimization cfg cc enc fs ft net pr s c e).buffer_size ≤
        cfg.buffer_size_mb * 1024 * 1024 := by
    intro s c e
    show calcBufferSize cfg _ _ ≤ _
    exact min_le_right _ _
  cases oracle with
  | disabled =>
    have heq : opt = mkOptimization cfg cc enc fs ft net pr
        (ruleBasedOptimization fs net).1 (ruleBasedOptimization fs net).2.1
        (ruleBasedOptimization fs net).2.2 := by
      simpa [optimizeDownload] using hopt.symm
    rw [heq]; exact hmk _ _ _
  | throws => simp [optimizeDownload] at hopt
  | returns s c e =>
    have heq : opt = mkOptimization cfg cc enc fs ft net pr s c e := by
      simpa [optimizeDownload] using hopt.symm
    rw [heq]; exact hmk s c e

/-- C8, witness: the amended theorem applied to the default configuration, a
5-byte file and the fast network snapshot. -/
theorem C8_buffer_le_witness :
    planOpt5B.buffer_size ≤ defaultDownloadConfig.buffer_size_mb * 1024 * 1024 :=
  C8_buffer_le defaultDownloadConfig defaultCompressionConfig false .disabled
    5 "" netFast 5 planOpt5B (by decide)

/-- A breaker in the `opened` state stays `opened` under `recordFailure`. -/
theorem recordFailure_opened (now : ℚ) (cb : CircuitBreaker)
    (h : cb.state = .opened) : (recordFailure now cb).state = .opened := by
  obtain ⟨s, fc, sc, oa, rt, th, tc⟩ := cb
  cases h
  unfold recordFailure
  dsimp only
  split <;> rfl

/-- A breaker in the `opened` state stays `opened` under any further sequence
of recorded failures. -/
theorem recordFailures_opened (ts : List ℚ) (cb : CircuitBreaker)
    (h : cb.state = .opened) : (recordFailures ts cb).state = .opened := by
  induction ts generalizing cb with
  | nil => exact h
  | cons t ts ih => exact ih _ (recordFailure_opened t cb h)

/-- On a `closed` breaker a failure either opens it or leaves it `closed`
with the count up by one and the threshold unchanged. -/
theorem recordFailure_closed (now : ℚ) (cb : CircuitBreaker)
    (h : cb.state = .closed) :
    (recordFailure now cb).state = .opened ∨
      ((recordFailure now cb).state = .closed ∧
        (recordFailure now cb).failure_count = cb.failure_count + 1 ∧
        (recordFailure now cb).threshold = cb.threshold) := by
  obtain ⟨s, fc, sc, oa, rt, th, tc⟩ := cb
  cases h
  unfold recordFailure
  dsimp only
  split
  · exact Or.inl rfl
  · exact Or.inr ⟨rfl, rfl, rfl⟩

/-- From a `closed` breaker, enough consecutive failures to reach the
threshold leave it `opened`. -/
theorem recordFailures_closed_opens (ts : List ℚ) (cb : CircuitBreaker)
    (h : cb.state = .closed) (hn : ts ≠ [])
    (hth : cb.threshold ≤ cb.failure_count + ts.length) :
    (recordFailures ts cb).state = .opened := by
  induction ts generalizing cb with
  | nil => exact absurd rfl hn
  | cons t ts ih =>
    have hstep := recordFailure_closed t cb h
    rcases hstep with hopen | ⟨hcl, hfc, hthr⟩
    · exact recordFailures_opened ts _ hopen
    · rcases ts with _ | ⟨t2, ts2⟩
      · simp only [List.length_cons, List.length_nil] at hth
        have : cb.threshold ≤ cb.failure_count + 1 := by omega
        exfalso
        obtain ⟨s, fc, sc, oa, rt, th, tc⟩ := cb
        cases h
        unfold recordFailure at hcl
        dsimp only at hcl
        rw [if_pos (by simpa using this)] at hcl
        exact absurd hcl (by simp)
      · refine ih _ hcl (by simp) ?_
        rw [hfc, hthr]
        simp only [List.length_cons] at hth ⊢
        omega

/-- C2, counterexample: the claim says exactly one trial request is let
through after the reset timeout, but `_is_circuit_open` lets every request
through once the breaker is `half_open`: two consecutive checks after the
timeout, with no success or failure recorded between them, both allow the
request. -/
theorem C2_counterexample :
    (isCircuitOpen 61 cbOpenAt0).1 = false ∧
      (isCircuitOpen 61 (isCircuitOpen 61 cbOpenAt0).2).1 = false := by decide

/-- C2, amended: after `threshold` (default 5) consecutive recorded failures
the breaker is `open` from any starting state; once `reset_timeout` has
elapsed the next check flips it to `half_open` and allows the request — and
every further request is also allowed while it stays `half_open` (not
exactly one); 3 consecutive `half_open` successes close it; a single
`half_open` failure reopens it. -/
theorem C2_breaker (cb : CircuitBreaker) (ts : List ℚ) (now : ℚ)
    (hth : cb.threshold = 5) (hlen : ts.length = 5) :
    (recordFailures ts cb).state = .opened ∧
      (∀ cbo : CircuitBreaker, cbo.state = .opened →
        cbo.reset_timeout < now - cbo.opened_at →
          isCircuitOpen now cbo =
            (false, { cbo with state := .halfOpen, test_count := 0 })) ∧
      (∀ cbh : CircuitBreaker, cbh.state = .halfOpen →
        (isCircuitOpen now cbh).1 = false) ∧
      (∀ cbh : CircuitBreaker, cbh.state = .halfOpen → cbh.test_count = 0 →
        (recordSuccess (recordSuccess (recordSuccess cbh))).state = .closed) ∧
      (∀ cbh : CircuitBreaker, cbh.state = .halfOpen →
        (recordFailure now cbh).state = .opened) := by
  refine ⟨?_, ?_, ?_, ?_, ?_⟩
  · rcases hs : cb.state with hclosed | hopened | hhalf
    · refine recordFailures_closed_opens ts cb hs ?_ ?_
      · intro h; rw [h] at hlen; simp at hlen
      · omega
    · exact recordFailures_opened ts cb hs
    · rcases ts with _ | ⟨t, ts'⟩
      · simp at hlen
      · have h1 : (recordFailure t cb).state = .opened := by
          obtain ⟨s, fc, sc, oa, rt, th, tc⟩ := cb
          cases hs
          rfl
        exact recordFailures_opened ts' _ h1
  · intro cbo hso hto
    obtain ⟨s, fc, sc, oa, rt, th, tc⟩ := cbo
    cases hso
    unfold isCircuitOpen
    dsimp only at hto ⊢
    rw [if_pos hto]
  · intro cbh hsh
    obtain ⟨s, fc, sc, oa, rt, th, tc⟩ := cbh
    cases hsh
    rfl
  · intro cbh hsh htc
    obtain ⟨s, fc, sc, oa, rt, th, tc⟩ := cbh
    cases hsh
    dsimp only at htc
    subst htc
    rfl
  · intro cbh hsh
    obtain ⟨s, fc, sc, oa, rt, th, tc⟩ := cbh
    cases hsh
    rfl

/-- C2, witness: the amended theorem applied to a fresh default breaker, five
failures at times 1..5 and a check at time 61. -/
theorem C2_breaker_witness :
    (recordFailures [1, 2, 3, 4, 5] mkCircuitBreaker).state = .opened ∧
      (∀ cbo : CircuitBreaker, cbo.state = .opened →
        cbo.reset_timeout < 61 - cbo.opened_at →
          isCircuitOpen 61 cbo =
            (false, { cbo with state := .halfOpen, test_count := 0 })) ∧
      (∀ cbh : CircuitBreaker, cbh.state = .halfOpen →
        (isCircuitOpen 61 cbh).1 = false) ∧
      (∀ cbh : CircuitBreaker, cbh.state = .halfOpen → cbh.test_count = 0 →
        (recordSuccess (recordSuccess (recordSuccess cbh))).state = .closed) ∧
      (∀ cbh : CircuitBreaker, cbh.state = .halfOpen →
        (recordFailure 61 cbh).state = .opened) :=
  C2_breaker mkCircuitBreaker [1, 2, 3, 4, 5] 61 (by decide) (by decide)

/-- C6: `complete_transfer` is idempotent — the first call removes the live
context and appends exactly one stats record; a second call on the same id
hits the unknown-id early return and changes nothing, so no duplicate stats
record is persisted. -/
theorem C6_complete_idempotent (st : MonitorState) (id : String)
    (t1 t2 : ℚ) (s1 s2 : Bool) (e1 e2 : String) :
    completeTransfer (completeTransfer st id t1 s1 e1) id t2 s2 e2 =
      completeTransfer st id t1 s1 e1 := by
  cases h : st.active id with
  | none =>
    have h1 : completeTransfer st id t1 s1 e1 = st := by
      unfold completeTransfer
      rw [h]
    rw [h1]
    unfold completeTransfer
    rw [h]
  | some ctx =>
    generalize hst1 : completeTransfer st id t1 s1 e1 = st1
    have h1 : st1.active id = none := by
      rw [← hst1]
      unfold completeTransfer
      rw [h]
      simp
    simp [completeTransfer, h1]

/-- The seed of a `foldl max` bounds the fold from below. -/
theorem le_foldl_max (x : ℚ) (xs : List ℚ) : x ≤ xs.foldl max x := by
  induction xs generalizing x with
  | nil => exact le_refl x
  | cons y ys ih => exact le_trans (le_max_left x y) (ih (max x y))

/-- Every member of the list bounds a `foldl max` from below. -/
theorem mem_le_foldl_max (a x : ℚ) (xs : List ℚ) (h : a ∈ xs) :
    a ≤ xs.foldl max x := by
  induction xs generalizing x with
  | nil => cases h
  | cons y ys ih =>
    rcases List.mem_cons.mp h with rfl | hy
    · exact le_trans (le_max_right x a) (le_foldl_max _ ys)
    · exact ih _ hy

/-- A `foldl max` is bounded by any common upper bound. -/
theorem foldl_max_le (x c : ℚ) (xs : List ℚ) (hx : x ≤ c)
    (h : ∀ a ∈ xs, a ≤ c) : xs.foldl max x ≤ c := by
  induction xs generalizing x with
  | nil => exact hx
  | cons y ys ih =>
    exact ih _ (max_le hx (h y (by simp))) (fun a ha => h a (by simp [ha]))

/-- `maxListQ` dominates every member. -/
theorem le_maxListQ (a : ℚ) (l : List ℚ) (h : a ∈ l) : a ≤ maxListQ l := by
  cases l with
  | nil => cases h
  | cons x xs =>
    rcases List.mem_cons.mp h with rfl | hx
    · exact le_foldl_max a xs
    · exact mem_le_foldl_max a x xs hx

/-- `maxListQ` of a nonempty list is bounded by any common upper bound. -/
theorem maxListQ_le (l : List ℚ) (c : ℚ) (hne : l ≠ []) (h : ∀ a ∈ l, a ≤ c) :
    maxListQ l ≤ c := by
  cases l with
  | nil => exact absurd rfl hne
  | cons x xs => exact foldl_max_le x c xs (h x (by simp)) (fun a ha => h a (by simp [ha]))

/-- Shape of a successful `_calculate_adaptive_eta` result: either the guard
returned 0, or the average speed was positive and the result is the maximum
of a nonempty list of estimates, each of the form `remaining / d`, with
`remaining / avg` among them. -/
theorem calculateAdaptiveEta_spec (b t : ℤ) (ss : List ℚ) (avg : ℚ)
    (ai : Bool) (ap : ℚ) (e : ℚ)
    (h : calculateAdaptiveEta b t ss avg ai ap = some e) :
    e = 0 ∨ (0 < avg ∧ ∃ l : List ℚ, l ≠ [] ∧
      (((t - b : ℤ) : ℚ) / avg) ∈ l ∧
      (∀ a ∈ l, ∃ d : ℚ, a = ((t - b : ℤ) : ℚ) / d) ∧ e = maxListQ l) := by
  unfold calculateAdaptiveEta at h
  split at h
  next hg =>
    left
    injection h with h
    exact h.symm
  next hg =>
    push_neg at hg
    right
    refine ⟨hg.2, ?_⟩
    try dsimp only at h
    split at h
    next hls => exact absurd h (by simp)
    next hls =>
      try dsimp only at h
      split at h
      next hnone => exact absurd h (by simp)
      next ms hsome =>
        have hmsP : ms ≠ [] ∧ (((t - b : ℤ) : ℚ) / avg) ∈ ms ∧
            ∀ a ∈ ms, ∃ d : ℚ, a = ((t - b : ℤ) : ℚ) / d := by
          split at hsome
          next h5 =>
            split at hsome
            next hw => exact absurd hsome (by simp)
            next hw =>
              injection hsome with hsome
              subst hsome
              refine ⟨by simp, by simp, ?_⟩
              intro a ha
              simp only [List.mem_cons, List.not_mem_nil, or_false] at ha
              rcases ha with rfl | rfl | rfl
              · exact ⟨_, rfl⟩
              · exact ⟨_, rfl⟩
              · exact ⟨_, rfl⟩
          next h5 =>
            injection hsome with hsome
            subst hsome
            refine ⟨by simp, by simp, ?_⟩
            intro a ha
            simp only [List.mem_cons, List.not_mem_nil, or_false] at ha
            rcases ha with rfl | rfl
            · exact ⟨_, rfl⟩
            · exact ⟨_, rfl⟩
        try dsimp only at h
        injection h with h
        split at h
        next hai =>
          refine ⟨ms ++ [((t - b : ℤ) : ℚ) / ap], ?_, ?_, ?_, h.symm⟩
          · simp [hmsP.1]
          · exact List.mem_append_left _ hmsP.2.1
          · intro a ha
            rcases List.mem_append.mp ha with hin | hin
            · exact hmsP.2.2 a hin
            · simp only [List.mem_cons, List.not_mem_nil, or_false] at hin
              subst hin
              exact ⟨_, rfl⟩
        next hai =>
          exact ⟨ms, hmsP.1, hmsP.2.1, hmsP.2.2, h.symm⟩

/-- C3, counterexample: the very first progress update of a registered
transfer computes its ETA before any speed sample exists, so the guard in
`_calculate_adaptive_eta` returns 0 although 0 of 100 bytes have been
transferred — `eta_seconds = 0` does not imply
`bytes_transferred = total_bytes`. -/
theorem C3_counterexample :
    updateTransferProgress ctxFresh 10 0 none none false 0 =
      some (sdFirst, ctxAfterFirst) ∧
      sdFirst.eta_seconds = 0 ∧
      sdFirst.bytes_transferred ≠ sdFirst.total_bytes := by decide

/-- C3, amended: whenever `updateProgress` returns a `SpeedData` (it can also
raise, see the division-by-zero claim) and `bytes_transferred ≤ total_bytes`,
the ETA is non-negative; and `bytes_transferred = total_bytes` forces
`eta_seconds = 0`.  The converse fails: the ETA is also 0 whenever the guard
fires (no samples yet, or non-positive average speed). -/
theorem C3_eta (ctx : TransferContext) (now : ℚ) (bytes : ℤ)
    (totalArg : Option ℤ) (speedArg : Option ℚ) (ai : Bool) (ap : ℚ)
    (sd : SpeedData) (ctx' : TransferContext)
    (h : updateTransferProgress ctx now bytes totalArg speedArg ai ap =
      some (sd, ctx'))
    (hb : bytes ≤ totalArg.getD ctx.file_size) :
    0 ≤ sd.eta_seconds ∧
      (bytes = totalArg.getD ctx.file_size → sd.eta_seconds = 0) := by
  unfold updateTransferProgress at h
  dsimp only at h
  split at h
  next heta => exact absurd h (by simp)
  next eta heta =>
    have hsd : sd.eta_seconds = eta := by
      injection h with h
      injection h with h1 h2
      rw [← h1]
    rw [hsd]
    have hrem : (0 : ℚ) ≤ ((totalArg.getD ctx.file_size - bytes : ℤ) : ℚ) := by
      exact_mod_cast Int.sub_nonneg.mpr hb
    rcases calculateAdaptiveEta_spec _ _ _ _ _ _ _ heta with hzero | ⟨havg, l, hne, hmem, hforms, hmax⟩
    · constructor
      · rw [hzero]
      · intro _; exact hzero
    · constructor
      · rw [hmax]
        refine le_trans ?_ (le_maxListQ _ l hmem)
        exact div_nonneg hrem (le_of_lt havg)
      · intro hbt
        have hr0 : ((totalArg.getD ctx.file_size - bytes : ℤ) : ℚ) = 0 := by
          rw [← hbt]; simp
        rw [hmax]
        have hall : ∀ a ∈ l, a = 0 := by
          intro a ha
          obtain ⟨d, rfl⟩ := hforms a ha
          rw [hr0, zero_div]
        have h1 : maxListQ l ≤ 0 := maxListQ_le l 0 hne (fun a ha => le_of_eq (hall a ha))
        have h2 : 0 ≤ maxListQ l := by
          have := le_maxListQ _ l hmem
          rw [hr0, zero_div] at this
          exact this
        linarith

/-- C3, witness: the amended theorem applied to a context holding one
sample, updated to 50 of 100 bytes. -/
theorem C3_eta_witness :
    0 ≤ sdOneSample.eta_seconds ∧
      ((50 : ℤ) = (none : Option ℤ).getD ctxOneSample.file_size →
        sdOneSample.eta_seconds = 0) :=
  C3_eta ctxOneSample 10 50 none none false 0 sdOneSample ctxOneSampleAfter
    (by decide) (by decide)

/-- C10: the fault the claim describes is real.  A first update with 0 bytes
and no explicit speed records a 0 speed sample; the next update with
0 < bytes < total reaches `remaining_bytes / speed_samples[-1]` with a zero
divisor and no guard, so the embedded update returns `none` (the Python code
raises `ZeroDivisionError`) instead of producing a `SpeedData`. -/
theorem C10_division_by_zero :
    ((updateTransferProgress ctxFresh 10 0 none none false 0).map
        (fun p => p.2.speed_samples) = some [0]) ∧
      ((updateTransferProgress ctxFresh 10 0 none none false 0).bind
        (fun p => updateTransferProgress p.2 20 50 none none false 0) = none) := by
  decide

set_option maxRecDepth 200000 in
/-- C7, counterexample: after 101 progress updates the live context holds 101
speed samples — `speed_samples` is not capped at the last 100 samples (nor at
any bound: each successful update appends one). -/
theorem C7_counterexample :
    (runUpdates 101).speed_samples.length = 101 ∧ ¬ (101 ≤ 100) := by
  refine ⟨by decide, by decide⟩

/-- C7, amended: each successful `updateProgress` call grows the context's
`speed_samples` by exactly one — the list is unbounded in the number of
calls; the bounded structure is the per-transfer history deque, which the
same code path caps at the configured `history_size`. -/
theorem C7_samples_growth (ctx : TransferContext) (now : ℚ) (bytes : ℤ)
    (totalArg : Option ℤ) (speedArg : Option ℚ) (ai : Bool) (ap : ℚ)
    (sd : SpeedData) (ctx' : TransferContext)
    (h : updateTransferProgress ctx now bytes totalArg speedArg ai ap =
      some (sd, ctx'))
    (hist : List SpeedData) (maxHistory : ℕ) :
    ctx'.speed_samples.length = ctx.speed_samples.length + 1 ∧
      (hist.length ≤ maxHistory →
        (appendHistoryTrim hist sd maxHistory).length ≤ maxHistory) := by
  constructor
  · unfold updateTransferProgress at h
    dsimp only at h
    split at h
    next heta => exact absurd h (by simp)
    next eta heta =>
      injection h with h
      injection h with h1 h2
      rw [← h2]
      simp
  · intro hlen
    unfold appendHistoryTrim
    dsimp only
    split
    next hgt => simpa using hlen
    next hle =>
      simp only [List.length_append, List.length_cons, List.length_nil] at hle ⊢
      omega

/-- C7, witness: the amended theorem applied to the first update of a fresh
context and an empty history with the default cap. -/
theorem C7_samples_growth_witness :
    ctxAfterFirst.speed_samples.length = ctxFresh.speed_samples.length + 1 ∧
      (([] : List SpeedData).length ≤ 1000 →
        (appendHistoryTrim [] sdFirst 1000).length ≤ 1000) :=
  C7_samples_growth ctxFresh 10 0 none none false 0 sdFirst ctxAfterFirst
    (by decide) [] 1000

/-- `addIndex` preserves duplicate-freeness. -/
theorem addIndex_nodup (l : List ℕ) (i : ℕ) (h : l.Nodup) : (addIndex l i).Nodup := by
  unfold addIndex
  split
  next => exact h
  next hni => simp [List.nodup_append, h, hni]

/-- The added index is a member. -/
theorem mem_addIndex_self (l : List ℕ) (i : ℕ) : i ∈ addIndex l i := by
  unfold addIndex
  split
  next h => exact h
  next h => simp

/-- `addIndex` keeps existing members. -/
theorem mem_addIndex_of_mem (l : List ℕ) (i a : ℕ) (h : a ∈ l) : a ∈ addIndex l i := by
  unfold addIndex
  split
  next => exact h
  next => simp [h]

/-- As a set, `addIndex` is `insert`. -/
theorem addIndex_toFinset (l : List ℕ) (i : ℕ) :
    (addIndex l i).toFinset = insert i l.toFinset := by
  ext a
  unfold addIndex
  split
  next h =>
    simp only [List.mem_toFinset, Finset.mem_insert]
    constructor
    · exact Or.inr
    · rintro (rfl | ha)
      · exact h
      · exact ha
  next h =>
    simp [or_comm]

/-- Folding `addIndex` preserves duplicate-freeness. -/
theorem foldl_addIndex_nodup (xs l : List ℕ) (h : l.Nodup) :
    (xs.foldl addIndex l).Nodup := by
  induction xs generalizing l with
  | nil => exact h
  | cons x xs ih => exact ih _ (addIndex_nodup l x h)

/-- Folding `addIndex` keeps existing members. -/
theorem mem_foldl_addIndex (xs l : List ℕ) (a : ℕ) (h : a ∈ l) :
    a ∈ xs.foldl addIndex l := by
  induction xs generalizing l with
  | nil => exact h
  | cons x xs ih => exact ih _ (mem_addIndex_of_mem l x a h)

/-- As a set, folding `addIndex` is a union. -/
theorem foldl_addIndex_toFinset (xs l : List ℕ) :
    (xs.foldl addIndex l).toFinset = l.toFinset ∪ xs.toFinset := by
  induction xs generalizing l with
  | nil => simp
  | cons x xs ih =>
    rw [List.foldl_cons, ih, addIndex_toFinset, List.toFinset_cons,
      Finset.insert_union, Finset.union_insert]

/-- Core property of the index-set construction: given the sorted change list
(whose indices are distinct and lie in `[1, n-1]`), for a requested point
count of at least 2 the built set contains 0 and `n-1`, is duplicate-free,
and has at most `target` elements. -/
theorem buildIndices_spec (n target : ℕ) (sorted : List (ℕ × ℚ))
    (hs : sorted.length = n - 1)
    (hnodup : (sorted.map Prod.fst).Nodup)
    (hrange : ∀ a ∈ sorted.map Prod.fst, 1 ≤ a ∧ a ≤ n - 1)
    (h2 : 2 ≤ target) (hn : target < n) :
    0 ∈ buildIndices n target sorted ∧
      (n - 1) ∈ buildIndices n target sorted ∧
      (buildIndices n target sorted).Nodup ∧
      (buildIndices n target sorted).length ≤ target := by
  have hn3 : 3 ≤ n := by omega
  unfold buildIndices
  dsimp only
  have htake : pySliceTo ((target : ℤ) - 2) sorted = sorted.take (target - 2) := by
    unfold pySliceTo
    rw [if_pos (by omega)]
    congr 1
    omega
  rw [htake, List.map_take]
  set base := addIndex (addIndex [] 0) (n - 1) with hbase
  have hbaseN : base.Nodup := addIndex_nodup _ _ (addIndex_nodup _ _ (by simp))
  have h0base : 0 ∈ base := mem_addIndex_of_mem _ _ _ (mem_addIndex_self [] 0)
  have hn1base : (n - 1) ∈ base := mem_addIndex_self _ _
  have hbaseT : base.toFinset = insert (n - 1) (insert 0 ∅) := by
    rw [hbase, addIndex_toFinset, addIndex_toFinset]
    simp
  set fstList := (sorted.map Prod.fst).take (target - 2) with hfst
  have hfstLen : fstList.length = target - 2 := by
    rw [hfst, List.length_take, List.length_map, hs]
    omega
  have hfstNodup : fstList.Nodup := (List.take_sublist _ _).nodup hnodup
  have hfstRange : ∀ a ∈ fstList, 1 ≤ a ∧ a ≤ n - 1 := by
    intro a ha
    exact hrange a ((List.take_sublist _ _).subset ha)
  have h0fst : 0 ∉ fstList := by
    intro h0
    have := (hfstRange 0 h0).1
    omega
  set afterTop := fstList.foldl addIndex base with haT
  have haTN : afterTop.Nodup := foldl_addIndex_nodup _ _ hbaseN
  have h0aT : 0 ∈ afterTop := mem_foldl_addIndex _ _ _ h0base
  have hn1aT : (n - 1) ∈ afterTop := mem_foldl_addIndex _ _ _ hn1base
  have haTT : afterTop.toFinset = base.toFinset ∪ fstList.toFinset :=
    foldl_addIndex_toFinset _ _
  have haTlen : afterTop.length = afterTop.toFinset.card :=
    (List.toFinset_card_of_nodup haTN).symm
  have hfstCard : fstList.toFinset.card = target - 2 := by
    rw [List.toFinset_card_of_nodup hfstNodup, hfstLen]
  have hub : afterTop.length ≤ target := by
    rw [haTlen, haTT]
    calc (base.toFinset ∪ fstList.toFinset).card
        ≤ base.toFinset.card + fstList.toFinset.card := Finset.card_union_le _ _
      _ ≤ 2 + (target - 2) := by
          rw [hfstCard]
          have : base.toFinset.card ≤ 2 := by
            rw [hbaseT]
            refine le_trans (Finset.card_insert_le _ _) ?_
            have := Finset.card_insert_le (0 : ℕ) (∅ : Finset ℕ)
            simp only [Finset.card_empty] at this
            omega
          omega
      _ = target := by omega
  have hlb : target - 1 ≤ afterTop.length := by
    rw [haTlen]
    have hsub : insert 0 fstList.toFinset ⊆ afterTop.toFinset := by
      rw [haTT]
      intro a ha
      rcases Finset.mem_insert.mp ha with rfl | ha
      · exact Finset.mem_union_left _ (by rw [hbaseT]; simp)
      · exact Finset.mem_union_right _ ha
    have hcard : (insert 0 fstList.toFinset).card = target - 1 := by
      rw [Finset.card_insert_of_not_mem (by simp only [List.mem_toFinset]; exact h0fst), hfstCard]
      omega
    calc target - 1 = (insert 0 fstList.toFinset).card := hcard.symm
      _ ≤ afterTop.toFinset.card := Finset.card_le_card hsub
  by_cases hrem : 0 < (target : ℤ) - afterTop.length
  · simp only [if_pos hrem]
    have hremT : ((target : ℤ) - afterTop.length).toNat = 1 := by omega
    rw [hremT, show (1 : ℕ) + 1 = 2 from rfl]
    set F := (List.range n).filter
      (fun i => decide (0 < i) && decide (i % (n / 2) = 0)) with hF
    have hFmem : ∀ i ∈ F, i = n / 2 ∨ i = n - 1 := by
      intro i hi
      rw [hF, List.mem_filter] at hi
      obtain ⟨hirange, hcond⟩ := hi
      simp only [Bool.and_eq_true, decide_eq_true_eq] at hcond
      obtain ⟨hipos, himod⟩ := hcond
      have hilt : i < n := List.mem_range.mp hirange
      obtain ⟨k, hk⟩ := Nat.dvd_of_mod_eq_zero himod
      have hstep1 : 1 ≤ n / 2 := by omega
      match k, hk with
      | 0, hk => omega
      | 1, hk => left; omega
      | 2, hk => right; omega
      | (k + 3), hk =>
        exfalso
        have h3 : n / 2 * 3 ≤ n / 2 * (k + 3) := Nat.mul_le_mul_left _ (by omega)
        omega
    refine ⟨mem_foldl_addIndex _ _ _ h0aT, mem_foldl_addIndex _ _ _ hn1aT,
      foldl_addIndex_nodup _ _ haTN, ?_⟩
    rw [← List.toFinset_card_of_nodup (foldl_addIndex_nodup _ _ haTN),
      foldl_addIndex_toFinset]
    have hsub : afterTop.toFinset ∪ F.toFinset ⊆ insert (n / 2) afterTop.toFinset := by
      intro a ha
      rcases Finset.mem_union.mp ha with ha | ha
      · exact Finset.mem_insert_of_mem ha
      · rcases hFmem a (List.mem_toFinset.mp ha) with rfl | rfl
        · exact Finset.mem_insert_self _ _
        · exact Finset.mem_insert_of_mem (List.mem_toFinset.mpr hn1aT)
    calc (afterTop.toFinset ∪ F.toFinset).card
        ≤ (insert (n / 2) afterTop.toFinset).card := Finset.card_le_card hsub
      _ ≤ afterTop.toFinset.card + 1 := Finset.card_insert_le _ _
      _ ≤ target := by rw [← haTlen]; omega
  · simp only [if_neg hrem]
    exact ⟨h0aT, hn1aT, haTN, hub⟩

/-- C9, counterexample: with one requested point and a two-point series
(`n = 2 > 1` requested), the routine returns `[0, 1]` of length 2 — the
output is not bounded by the requested point count when fewer than 2 points
are requested. -/
theorem C9_counterexample :
    smartSamplingIndices [1, 2] 1 = [0, 1] ∧
      ¬ ((smartSamplingIndices [1, 2] 1).length ≤ 1) := by
  refine ⟨by decide, by decide⟩

/-- C9, amended: for every series longer than the requested point count and
every request of at least 2 points, the returned selection contains index 0
and index `n-1` and has length at most the requested count (for a request of
0 or 1 points the negative Python slice `changes[:target-2]` makes the
output overshoot, as the counterexample shows). -/
theorem C9_sampling (speeds : List ℚ) (target : ℕ)
    (h2 : 2 ≤ target) (hn : target < speeds.length) :
    0 ∈ smartSamplingIndices speeds target ∧
      (speeds.length - 1) ∈ smartSamplingIndices speeds target ∧
      (smartSamplingIndices speeds target).length ≤ target := by
  unfold smartSamplingIndices
  dsimp only
  rw [if_neg (by omega)]
  set n := speeds.length with hn'
  set changes := (List.range (n - 1)).map
    (fun j => (j + 1, |speeds.getD (j + 1) 0 - speeds.getD j 0|)) with hch
  set sorted := changes.insertionSort (fun a b => b.2 ≤ a.2) with hsorted
  have hperm : List.Perm sorted changes := List.perm_insertionSort _ _
  have hs : sorted.length = n - 1 := by
    rw [hperm.length_eq, hch, List.length_map, List.length_range]
  have hmapperm : List.Perm (sorted.map Prod.fst) (changes.map Prod.fst) := hperm.map _
  have hchfst : changes.map Prod.fst = (List.range (n - 1)).map (fun j => j + 1) := by
    rw [hch, List.map_map]
    rfl
  have hnodup : (sorted.map Prod.fst).Nodup := by
    rw [hmapperm.nodup_iff, hchfst]
    exact List.Nodup.map (fun a b h => by omega) (List.nodup_range _)
  have hrange : ∀ a ∈ sorted.map Prod.fst, 1 ≤ a ∧ a ≤ n - 1 := by
    intro a ha
    have hmem : a ∈ changes.map Prod.fst := hmapperm.subset ha
    rw [hchfst] at hmem
    obtain ⟨j, hj, rfl⟩ := List.mem_map.mp hmem
    have := List.mem_range.mp hj
    omega
  obtain ⟨m0, m1, nd, len⟩ := buildIndices_spec n target sorted hs hnodup hrange h2 hn
  have hperm2 : List.Perm ((buildIndices n target sorted).insertionSort (· ≤ ·))
      (buildIndices n target sorted) := List.perm_insertionSort _ _
  exact ⟨hperm2.mem_iff.mpr m0, hperm2.mem_iff.mpr m1,
    by rw [hperm2.length_eq]; exact len⟩

/-- C9, witness: the amended theorem applied to the 10-point ramp series with
5 requested points. -/
theorem C9_sampling_witness :
    0 ∈ smartSamplingIndices rampSpeeds 5 ∧
      (rampSpeeds.length - 1) ∈ smartSamplingIndices rampSpeeds 5 ∧
      (smartSamplingIndices rampSpeeds 5).length ≤ 5 :=
  C9_sampling rampSpeeds 5 (by norm_num) (by decide)

end RestrictedBot
